import Mathlib

/-!
Verification of the ECDSA-node transfer service: a shallow embedding of the
client wallet (`LocalWallet.js`), the transfer form handler (`Transfer.jsx`)
and the server-side ledger/authorization core described by the specification.

Bytes are natural numbers (kept below 256 by construction); byte sequences are
`List Nat`. The external cryptographic library (`ethereum-cryptography`:
keccak256 and secp256k1 signing/recovery) is not code of this repository, so
those primitives appear as explicit function parameters; everything the
repository itself computes around them is embedded faithfully.
-/

/-- A byte value (0–255), represented as a natural number. -/
abbrev Byte := Nat

/-- Value of a single hexadecimal digit character, `none` for a non-hex
character. Accepts both lowercase and uppercase digits. -/
def hexDigitVal (c : Char) : Option Nat :=
  if '0' ≤ c ∧ c ≤ '9' then some (c.toNat - '0'.toNat)
  else if 'a' ≤ c ∧ c ≤ 'f' then some (c.toNat - 'a'.toNat + 10)
  else if 'A' ≤ c ∧ c ≤ 'F' then some (c.toNat - 'A'.toNat + 10)
  else none

/-- Decode a list of hex characters, two characters per byte
(high nibble first). Fails on an odd-length list or a non-hex character. -/
def hexPairsToBytes : List Char → Option (List Byte)
  | [] => some []
  | c1 :: c2 :: rest => do
      let h ← hexDigitVal c1
      let l ← hexDigitVal c2
      let bs ← hexPairsToBytes rest
      pure ((16 * h + l) :: bs)
  | [_] => none

/-- `hexToBytes` of `ethereum-cryptography/utils`: decode a hex string
(without `0x`) into its byte sequence. -/
def hexToBytes (s : String) : Option (List Byte) :=
  hexPairsToBytes s.data

/-- The character for a nibble value: `0`–`9` then lowercase `a`–`f`. -/
def hexDigitChar (n : Nat) : Char :=
  if n < 10 then Char.ofNat ('0'.toNat + n) else Char.ofNat ('a'.toNat + (n - 10))

/-- Two lowercase hex characters of one byte, high nibble first. -/
def byteToHex (b : Byte) : List Char :=
  [hexDigitChar (b / 16), hexDigitChar (b % 16)]

/-- `toHex` of `ethereum-cryptography/utils`: lowercase hex rendering of a
byte sequence. -/
def toHex (bs : List Byte) : String :=
  ⟨(bs.map byteToHex).flatten⟩

/-- JavaScript `array.slice(-n)`: the last `n` elements (the whole array when
it is shorter than `n`). -/
def sliceLast (n : Nat) (l : List Byte) : List Byte :=
  l.drop (l.length - n)

namespace LocalWallet

/-- The transfer message built by the transfer form (`Transfer.jsx`):
`{amount: parseInt(sendAmount), recipient}`. The amount is a JavaScript
number produced by `parseInt`, i.e. an integer or `NaN`; `NaN` is modelled
as `none`. -/
structure TransferMessage where
  amount : Option Int
  recipient : String
  deriving DecidableEq

/-- A stored key pair of the fake wallet, hex strings without `0x`. -/
structure KeyPair where
  «private» : String
  public : String

/-- The fixed account list `ACCOUNT_KEYS` of `LocalWallet.js`. -/
def ACCOUNT_KEYS : List (String × KeyPair) :=
  [ ("bob",
     { «private» := "375969494c991fef613343fdb163665cea928b3f8185db9ef8b77e162e96bf12",
       public := "044b295d147068d4cbae1277098c2d66dde85d92bea4fa7368025be78067bb7a6bc80408c466f74c55b40b132d0b44d8615ae6d3505062e165ce6f82552257665a" }),
    ("alice",
     { «private» := "7646a936705c7b51fa28ca0251cbbbebe5d9030282434c531a76fe2b4f2bf52e",
       public := "04bbb34ec1e7ba7bbb6b64f1efb7f55224ea8aa44976b27ef97a348c11902eeb18cd0cbc612c40e2a19375e28edce1dde7a73ecfdf8620f51aadf544e5652e33a0" }),
    ("charles",
     { «private» := "cebf6cd6f033901a212e95cd6f4a23a2a7a8299b0d2429f8e838b5b2d1ee336c",
       public := "041a29c5e0e72ab1461d4b15d6385b3ce464c7ec737cce113f378ae767af903a309982b6da43786470adddb4d5946f4f3fbcab9575e4e830984920b4f2faa1d20d" }) ]

/-- User names derived from the account list. -/
def USERS : List String := ACCOUNT_KEYS.map Prod.fst

/-- Look up the stored key pair of a user name. -/
def lookupKeys (user : String) : Option KeyPair :=
  match ACCOUNT_KEYS with
  | l => (l.find? (fun p => p.fst = user)).map Prod.snd

/-- `getPublicKey`: the user's public key bytes (`none` for the empty user,
for an unknown user — a runtime error in the JavaScript — or for an
undecodable stored key). -/
def getPublicKey (user : String) : Option (List Byte) :=
  if user = "" then none
  else match lookupKeys user with
    | some keys => hexToBytes keys.public
    | none => none

/-- `getPrivateKey`: the user's private key bytes, same conventions as
`getPublicKey`. -/
def getPrivateKey (user : String) : Option (List Byte) :=
  if user = "" then none
  else match lookupKeys user with
    | some keys => hexToBytes keys.«private»
    | none => none

/-- Model of JavaScript `Uint8Array.from(message)` where `message` is the
plain object literal `{amount, recipient}` built by the transfer form: the
object is not iterable and has no `length` property, so the ECMAScript
array-like conversion path reads `length` as `undefined`, coerces it to `0`,
and returns the empty typed array — whatever the amount and recipient are. -/
def uint8ArrayFrom (_message : TransferMessage) : List Byte := []

/-- `hashMessage` of `LocalWallet.js`:
`keccak256(Uint8Array.from(message))`, with the 256-bit hash function as an
explicit parameter (external library code). -/
def hashMessage (keccak256 : List Byte → List Byte)
    (message : TransferMessage) : List Byte :=
  keccak256 (uint8ArrayFrom message)

/-- `getAddress` of `LocalWallet.js`: drop the first byte of the public key,
hash the rest, keep the last 20 bytes of the digest, render as uppercase
hex. -/
def getAddress (keccak256 : List Byte → List Byte)
    (user : String) : Option String :=
  if user = "" then none
  else match getPublicKey user with
    | none => none
    | some pubKey =>
        some (String.toUpper (toHex (sliceLast 20 (keccak256 (pubKey.drop 1)))))

/-- `sign` of `LocalWallet.js`: hash the message, sign the hash with the
user's private key via the secp256k1 library (a parameter returning the
signature bytes and the recovery bit), then hex-encode the recovery bit
followed by the signature bytes. -/
def sign (keccak256 : List Byte → List Byte)
    (secpSign : List Byte → List Byte → List Byte × Byte)
    (username : String) (message : TransferMessage) : Option String :=
  match getPrivateKey username with
  | none => none
  | some privateKey =>
      let hash := hashMessage keccak256 message
      let (signature, recoveryBit) := secpSign hash privateKey
      let fullSignature := recoveryBit :: signature
      some (toHex fullSignature)

/-- Spec §4.1 `deriveAddress`, written from the specification's words for
comparison with the implementation: drop the 1-byte format prefix of the
65-byte uncompressed public key, hash the remaining 64 bytes, take the last
20 bytes of the digest, canonical textual form uppercase hexadecimal. -/
def deriveAddress (keccak256 : List Byte → List Byte)
    (publicKey : List Byte) : String :=
  String.toUpper (toHex (sliceLast 20 (keccak256 (publicKey.drop 1))))

end LocalWallet

namespace Client

open LocalWallet

/-- Model of JavaScript `parseInt(s)` (radix 10): skip leading spaces, read an
optional sign and then the maximal run of decimal digits; `NaN` (here `none`)
when no digit is read. -/
def jsParseInt (s : String) : Option Int :=
  let chars := s.data.dropWhile (fun c => c = ' ')
  let signed : Int × List Char :=
    match chars with
    | '-' :: cs => (-1, cs)
    | '+' :: cs => (1, cs)
    | cs => (1, cs)
  let digits := (signed.2.takeWhile (fun c => '0' ≤ c ∧ c ≤ '9')).map
    (fun c => c.toNat - '0'.toNat)
  if digits = [] then none
  else some (signed.1 * digits.foldl (fun acc d => 10 * acc + (d : Int)) 0)

/-- The transaction payload `{message, signature}` submitted to the server by
`Transfer.jsx`; the specification calls this a `SignedTransfer`. -/
structure SignedTransfer where
  message : TransferMessage
  signature : String
  deriving DecidableEq

/-- The `transfer` handler of `Transfer.jsx`: build the message from the two
form fields (`parseInt(sendAmount)` and the recipient string as typed), sign
it with the wallet (the signing operation is a parameter here — in the code,
`wallet.sign(user, message)`), and submit the `{message, signature}` payload.
There is no validation of the amount or the recipient before signing. -/
def clientTransfer (signFn : TransferMessage → String)
    (sendAmount recipient : String) : SignedTransfer :=
  let message : TransferMessage :=
    { amount := jsParseInt sendAmount, recipient := recipient }
  { message := message, signature := signFn message }

end Client

namespace Server

open LocalWallet Client

/-- Account addresses, canonical uppercase hex strings. -/
abbrev Address := String

/-- Modelled from the spec: the Ledger state (spec §4.3), a finite mapping
`Address → Balance`; the server's own code is not part of the repository
sources. Represented as an association list; absent addresses read as 0. -/
abbrev Ledger := List (Address × Int)

/-- The error kinds of spec §7. -/
inductive TransferError where
  | MalformedPublicKeyError
  | InvalidSignatureError
  | InsufficientFundsError
  | MalformedRequestError
  deriving DecidableEq

/-- Modelled from the spec: `getBalance` (spec §4.3) — never fails, unknown
addresses read as 0. -/
def getBalance : Ledger → Address → Int
  | [], _ => 0
  | (a, v) :: rest, x => if x = a then v else getBalance rest x

/-- Write a balance: overwrite the entry of `a`, or append a fresh entry when
`a` is unseen (implicit account creation, spec §3). -/
def setBalance : Ledger → Address → Int → Ledger
  | [], a, v => [(a, v)]
  | (a', v') :: rest, a, v =>
      if a' = a then (a, v) :: rest else (a', v') :: setBalance rest a v

/-- Modelled from the spec: `Ledger.transfer` (spec §4.3). Preconditions:
`amount > 0` (violation is a malformed request, spec §7) and sender balance
`≥ amount` (violation is `InsufficientFundsError`). Effect: atomically debit
the sender and credit the recipient; returns the new state and the new sender
balance. An error leaves the state untouched (the state is only produced on
success — all-or-nothing). -/
def transfer (st : Ledger) (sender recipient : Address) (amount : Int) :
    Except TransferError (Ledger × Int) :=
  if amount ≤ 0 then .error .MalformedRequestError
  else if getBalance st sender < amount then .error .InsufficientFundsError
  else
    let st1 := setBalance st sender (getBalance st sender - amount)
    let st2 := setBalance st1 recipient (getBalance st1 recipient + amount)
    .ok (st2, getBalance st2 sender)

/-- Modelled from the spec: `authorizeAndApply` (spec §4.4) with the §7
malformed-request gate. Steps 1–3 (hash the message with the canonical
encoding, recover the public key, derive the sender address) are pure
cryptographic work on the message and signature; they appear as one
parameter `recoverSender`, applied only after the malformed-request checks.
`none` from recovery is an `InvalidSignatureError`; otherwise the ledger
transfer runs with the recovered sender. -/
def authorizeAndApply (recoverSender : TransferMessage → String → Option Address)
    (st : Ledger) (tx : SignedTransfer) :
    Except TransferError (Ledger × Int) :=
  match tx.message.amount with
  | none => .error .MalformedRequestError
  | some n =>
      if n ≤ 0 then .error .MalformedRequestError
      else if tx.message.recipient = "" then .error .MalformedRequestError
      else
        match recoverSender tx.message tx.signature with
        | none => .error .InvalidSignatureError
        | some sender => transfer st sender tx.message.recipient n

/-- The sender-recovery pipeline consistent with the wallet: hash the message
exactly as the signing side does (`hashMessage`, spec §4.2 requires signing
and recovery to use the same message hash so that sign-then-recover
reproduces the signer's address, spec §8), then run curve recovery and
address derivation (external library code, the `recover` parameter). -/
def recoverVia (keccak256 : List Byte → List Byte)
    (recover : List Byte → String → Option Address)
    (message : TransferMessage) (signature : String) : Option Address :=
  recover (hashMessage keccak256 message) signature

/-- Ledger states reachable from `init` by successful transfers. -/
inductive ReachableFrom (init : Ledger) : Ledger → Prop
  | refl : ReachableFrom init init
  | step {st st' : Ledger} {s r : Address} {n b : Int} :
      ReachableFrom init st → transfer st s r n = .ok (st', b) →
      ReachableFrom init st'

/-- Sum of all recorded balances. -/
def sumBal (st : Ledger) : Int := (st.map Prod.snd).sum

/-- Apply a sequence of transfer requests, failing as soon as one fails. -/
def applySeq : Ledger → List (Address × Address × Int) →
    Except TransferError Ledger
  | st, [] => .ok st
  | st, (s, r, n) :: rest =>
      match transfer st s r n with
      | .ok (st', _) => applySeq st' rest
      | .error e => .error e

end Server

/-- Non-negativity invariant of a ledger state: every address reads ≥ 0. -/
def Server.NonNegLedger (st : Server.Ledger) : Prop :=
  ∀ a, 0 ≤ Server.getBalance st a

instance {ε α : Type} [DecidableEq ε] [DecidableEq α] : DecidableEq (Except ε α) :=
  fun a b =>
  match a, b with
  | .ok x, .ok y =>
      if h : x = y then .isTrue (by rw [h])
      else .isFalse (by intro hc; cases hc; exact h rfl)
  | .error x, .error y =>
      if h : x = y then .isTrue (by rw [h])
      else .isFalse (by intro hc; cases hc; exact h rfl)
  | .ok _, .error _ => .isFalse (by intro hc; cases hc)
  | .error _, .ok _ => .isFalse (by intro hc; cases hc)

/-- A concrete stand-in for the 256-bit hash in witnesses: a constant
32-byte digest. -/
def keccakStub : List Byte → List Byte := fun _ => List.replicate 32 7

/-- A concrete stand-in for the secp256k1 signing primitive in witnesses:
a 64-byte signature and recovery bit 1. -/
def secpSignStub : List Byte → List Byte → List Byte × Byte :=
  fun _ _ => (List.replicate 64 0, 1)

/-- A concrete stand-in for curve recovery plus address derivation in
witnesses: recovers the address "A" exactly on the digest of the empty byte
sequence under `keccakStub`. -/
def recoverHashStub : List Byte → String → Option Server.Address :=
  fun h _ => if h = keccakStub [] then some "A" else none

open LocalWallet Client Server

/-- C10: `hashMessage` converts the plain `{amount, recipient}` message
object with `Uint8Array.from`, which yields the empty byte sequence for any
such object; hence any two transfer-form messages hash identically under
every hash function — the hash does not depend on the amount or the
recipient. -/
theorem hashMessage_ignores_message (keccak256 : List Byte → List Byte)
    (m1 m2 : TransferMessage) :
    uint8ArrayFrom m1 = [] ∧
    hashMessage keccak256 m1 = hashMessage keccak256 m2 :=
  ⟨rfl, rfl⟩

/-- C1 (code-bug evidence): the two transfer messages {amount 1, recipient
"AA"} and {amount 2, recipient "BB"} are distinct, yet their byte encodings
(`Uint8Array.from`) are identical (both empty), so their hashes agree under
every 256-bit hash function — the encoding hashed before signing is not
unambiguous and order-preserving. -/
theorem encoding_collision_concrete :
    (⟨some 1, "AA"⟩ : TransferMessage) ≠ ⟨some 2, "BB"⟩ ∧
    uint8ArrayFrom ⟨some 1, "AA"⟩ = uint8ArrayFrom ⟨some 2, "BB"⟩ ∧
    ∀ keccak256 : List Byte → List Byte,
      hashMessage keccak256 ⟨some 1, "AA"⟩ = hashMessage keccak256 ⟨some 2, "BB"⟩ :=
  ⟨by decide, rfl, fun _ => rfl⟩

/-- C2 (code-bug evidence): take the valid signed transfer {amount 30,
recipient "BB"} accepted from a ledger where sender "A" holds 100. Mutating
a byte of the recipient (to "BA") leaves the message hash unchanged — the
recovery input is byte-identical for every hash function and every recovery
function — so the tampered transfer is also accepted, debiting the original
sender "A" the original amount 30; it is neither recovered to a different
address nor rejected as an invalid signature. -/
theorem tampered_recipient_still_authorized :
    (⟨some 30, "BB"⟩ : TransferMessage) ≠ ⟨some 30, "BA"⟩ ∧
    (∀ (keccak256 : List Byte → List Byte)
       (recover : List Byte → String → Option Address) (sig : String),
       recoverVia keccak256 recover ⟨some 30, "BB"⟩ sig =
         recoverVia keccak256 recover ⟨some 30, "BA"⟩ sig) ∧
    authorizeAndApply (recoverVia keccakStub recoverHashStub) [("A", 100)]
        ⟨⟨some 30, "BB"⟩, "sig"⟩ = .ok ([("A", 70), ("BB", 30)], 70) ∧
    authorizeAndApply (recoverVia keccakStub recoverHashStub) [("A", 100)]
        ⟨⟨some 30, "BA"⟩, "sig"⟩ = .ok ([("A", 70), ("BA", 30)], 70) :=
  ⟨by decide, fun _ _ _ => rfl, by decide, by decide⟩

set_option maxRecDepth 8000 in
set_option maxHeartbeats 1000000 in
/-- C3: for every wallet user, the stored uncompressed public key is 65
bytes and `getAddress` equals the specification's `deriveAddress` on it:
strip the 1-byte format prefix, hash the remaining 64 bytes, keep the last
20 bytes of the digest, render in uppercase hexadecimal — for every 256-bit
hash function. -/
theorem getAddress_matches_deriveAddress (keccak256 : List Byte → List Byte)
    (user : String) (h : user ∈ USERS) :
    ∃ pubKey, getPublicKey user = some pubKey ∧ pubKey.length = 65 ∧
      getAddress keccak256 user = some (deriveAddress keccak256 pubKey) := by
  simp only [USERS, ACCOUNT_KEYS, List.map, List.mem_cons, List.not_mem_nil,
    or_false] at h
  rcases h with rfl | rfl | rfl
  · exact ⟨(getPublicKey "bob").getD [], rfl, by decide, rfl⟩
  · exact ⟨(getPublicKey "alice").getD [], rfl, by decide, rfl⟩
  · exact ⟨(getPublicKey "charles").getD [], rfl, by decide, rfl⟩

/-- Witness for C3 at the user "bob" and a concrete hash function. -/
theorem getAddress_matches_deriveAddress_witness :
    ∃ pubKey, getPublicKey "bob" = some pubKey ∧ pubKey.length = 65 ∧
      getAddress keccakStub "bob" = some (deriveAddress keccakStub pubKey) :=
  getAddress_matches_deriveAddress keccakStub "bob" (by decide)

/-- Decoding the hex pair of a nibble value gives the value back. -/
theorem hexDigitVal_hexDigitChar {n : Nat} (h : n < 16) :
    hexDigitVal (hexDigitChar n) = some n := by
  interval_cases n <;> rfl

/-- `hexToBytes` is a left inverse of `toHex` on genuine byte sequences. -/
theorem hexToBytes_toHex (bs : List Byte) (h : ∀ b ∈ bs, b < 256) :
    hexToBytes (toHex bs) = some bs := by
  induction bs with
  | nil => rfl
  | cons b rest ih =>
      have hb : b < 256 := h b (List.mem_cons_self b rest)
      have hhi : b / 16 < 16 := Nat.div_lt_of_lt_mul hb
      have hlo : b % 16 < 16 := Nat.mod_lt b (by norm_num)
      have hrest : hexToBytes (toHex rest) = some rest :=
        ih (fun x hx => h x (List.mem_cons_of_mem b hx))
      show hexPairsToBytes (byteToHex b ++ (rest.map byteToHex).flatten) = some (b :: rest)
      rw [byteToHex, List.cons_append, List.singleton_append, hexPairsToBytes]
      rw [hexDigitVal_hexDigitChar hhi, hexDigitVal_hexDigitChar hlo]
      have : hexPairsToBytes ((rest.map byteToHex).flatten) = some rest := hrest
      rw [this]
      show some ((16 * (b / 16) + b % 16) :: rest) = some (b :: rest)
      rw [Nat.div_add_mod]

/-- C4: the wallet's `sign` produces the hex encoding of the recovery
indicator byte followed by the 64 signature bytes r‖s returned by the
secp256k1 signing primitive; decoding the hex string recovers exactly that
byte sequence (first byte the recovery indicator, remaining 64 bytes the
signature). -/
theorem sign_wire_format (keccak256 : List Byte → List Byte)
    (secpSign : List Byte → List Byte → List Byte × Byte)
    (username : String) (message : TransferMessage)
    (privateKey sigBytes : List Byte) (recoveryBit : Byte)
    (hpriv : getPrivateKey username = some privateKey)
    (hsig : secpSign (hashMessage keccak256 message) privateKey =
      (sigBytes, recoveryBit))
    (hlen : sigBytes.length = 64) (hrb : recoveryBit < 256)
    (hbytes : ∀ b ∈ sigBytes, b < 256) :
    LocalWallet.sign keccak256 secpSign username message =
      some (toHex (recoveryBit :: sigBytes)) ∧
    hexToBytes (toHex (recoveryBit :: sigBytes)) = some (recoveryBit :: sigBytes) ∧
    (recoveryBit :: sigBytes).head? = some recoveryBit ∧
    (recoveryBit :: sigBytes).drop 1 = sigBytes ∧
    ((recoveryBit :: sigBytes).drop 1).length = 64 := by
  refine ⟨?_, ?_, rfl, rfl, by simpa using hlen⟩
  · rw [LocalWallet.sign, hpriv]
    simp only [hsig]
  · exact hexToBytes_toHex _ (by
      intro x hx
      rcases List.mem_cons.mp hx with rfl | hx
      · exact hrb
      · exact hbytes x hx)

set_option maxRecDepth 8000 in
set_option maxHeartbeats 1000000 in
/-- Witness for C4: the user "bob", a concrete message, and concrete hash
and signing primitives. -/
theorem sign_wire_format_witness :
    LocalWallet.sign keccakStub secpSignStub "bob" ⟨some 1, "AA"⟩ =
      some (toHex (1 :: List.replicate 64 0)) ∧
    hexToBytes (toHex (1 :: List.replicate 64 0)) = some (1 :: List.replicate 64 0) ∧
    (1 :: List.replicate 64 (0 : Byte)).head? = some 1 ∧
    (1 :: List.replicate 64 (0 : Byte)).drop 1 = List.replicate 64 0 ∧
    ((1 :: List.replicate 64 (0 : Byte)).drop 1).length = 64 :=
  sign_wire_format keccakStub secpSignStub "bob" ⟨some 1, "AA"⟩
    ((getPrivateKey "bob").getD []) (List.replicate 64 0) 1
    rfl rfl (by decide) (by decide) (by decide)

/-- Reading a balance after writing one: the written address reads the new
value, every other address is untouched. -/
theorem getBalance_setBalance (st : Ledger) (a x : Address) (v : Int) :
    getBalance (setBalance st a v) x = if x = a then v else getBalance st x := by
  induction st with
  | nil =>
      by_cases hxa : x = a <;> simp [setBalance, getBalance, hxa]
  | cons p rest ih =>
      obtain ⟨b, w⟩ := p
      by_cases hba : b = a
      · subst hba
        by_cases hxb : x = b <;> simp [setBalance, getBalance, hxb]
      · by_cases hxb : x = b
        · subst hxb
          simp [setBalance, getBalance, hba]
        · simp [setBalance, getBalance, hba, hxb, ih]

/-- Writing a balance changes the recorded total by the difference between
the new value and the previous reading. -/
theorem sumBal_setBalance (st : Ledger) (a : Address) (v : Int) :
    sumBal (setBalance st a v) = sumBal st - getBalance st a + v := by
  induction st with
  | nil => simp [setBalance, sumBal, getBalance]
  | cons p rest ih =>
      obtain ⟨b, w⟩ := p
      by_cases hba : b = a
      · subst hba
        simp [setBalance, sumBal, getBalance]
        ring
      · have hab : ¬ a = b := fun hc => hba hc.symm
        simp [setBalance, sumBal, getBalance, hba, hab]
        simp only [sumBal] at ih
        rw [ih]
        ring

/-- Characterization of a successful transfer: the amount is positive and
within the sender's balance, and the new state is the debit of the sender
followed by the credit of the recipient. -/
theorem transfer_eq_ok {st st' : Ledger} {s r : Address} {n b : Int}
    (h : transfer st s r n = .ok (st', b)) :
    0 < n ∧ n ≤ getBalance st s ∧
    st' = setBalance (setBalance st s (getBalance st s - n)) r
      (getBalance (setBalance st s (getBalance st s - n)) r + n) ∧
    b = getBalance st' s := by
  unfold transfer at h
  split_ifs at h with h1 h2
  simp only [Except.ok.injEq, Prod.mk.injEq] at h
  obtain ⟨hst, hb⟩ := h
  refine ⟨by linarith [not_le.mp h1], not_lt.mp h2, hst.symm, ?_⟩
  rw [hst] at hb
  exact hb.symm

/-- A successful transfer preserves the non-negativity invariant. -/
theorem transfer_preserves_nonneg {st st' : Ledger} {s r : Address} {n b : Int}
    (hnn : NonNegLedger st) (h : transfer st s r n = .ok (st', b)) :
    NonNegLedger st' := by
  obtain ⟨hpos, hle, hst, -⟩ := transfer_eq_ok h
  subst hst
  intro a
  rw [getBalance_setBalance]
  split
  · rw [getBalance_setBalance]
    split
    · linarith
    · linarith [hnn r]
  · rw [getBalance_setBalance]
    split
    · linarith
    · exact hnn a

/-- A successful transfer conserves the recorded total. -/
theorem transfer_conserves {st st' : Ledger} {s r : Address} {n b : Int}
    (h : transfer st s r n = .ok (st', b)) : sumBal st' = sumBal st := by
  obtain ⟨-, -, hst, -⟩ := transfer_eq_ok h
  subst hst
  rw [sumBal_setBalance, sumBal_setBalance]
  ring

/-- C5: from any non-negative initial state, every reachable ledger state
has only balances ≥ 0; a transfer of the sender's entire (positive) balance
succeeds (exact drain), and a transfer of balance + 1 fails with
`InsufficientFundsError` — so `transfer` never produces a negative
balance. -/
theorem ledger_balances_nonneg (init st : Ledger)
    (hinit : ∀ a, 0 ≤ getBalance init a) (hreach : ReachableFrom init st) :
    (∀ a, 0 ≤ getBalance st a) ∧
    (∀ s r, 0 < getBalance st s →
      ∃ p, transfer st s r (getBalance st s) = .ok p) ∧
    (∀ s r, transfer st s r (getBalance st s + 1) =
      .error .InsufficientFundsError) := by
  have hnn : NonNegLedger st := by
    induction hreach with
    | refl => exact hinit
    | step hr htr ih => exact transfer_preserves_nonneg ih htr
  refine ⟨hnn, ?_, ?_⟩
  · intro s r hpos
    unfold transfer
    rw [if_neg (show ¬ getBalance st s ≤ 0 by linarith),
      if_neg (lt_irrefl (getBalance st s))]
    exact ⟨_, rfl⟩
  · intro s r
    unfold transfer
    rw [if_neg (by linarith [hnn s]), if_pos (by linarith)]

/-- Witness for C5: the initial state where "A" holds 10 (reachable from
itself), an exact drain of 10 to "B", and a failing transfer of 11. -/
theorem ledger_balances_nonneg_witness :
    0 ≤ getBalance [("A", 10)] "A" ∧
    (∃ p, transfer [("A", 10)] "A" "B" 10 = .ok p) ∧
    transfer [("A", 10)] "A" "B" 11 = .error .InsufficientFundsError := by
  obtain ⟨h1, h2, h3⟩ := ledger_balances_nonneg [("A", 10)] [("A", 10)]
    (fun a => by by_cases h : a = "A" <;> simp [getBalance, h])
    ReachableFrom.refl
  have hbal : getBalance [("A", 10)] "A" = 10 := by decide
  refine ⟨h1 "A", ?_, ?_⟩
  · have := h2 "A" "B" (by rw [hbal]; norm_num)
    rwa [hbal] at this
  · have := h3 "A" "B"
    rw [hbal] at this
    norm_num at this ⊢
    exact this

/-- C6: the sum of all balances is conserved — by any sequence of successful
transfers, and by each successful transfer individually (the debit and the
credit only ever occur together, as one atomic pair inside `transfer`). -/
theorem transfer_conservation (st st' st₂ : Ledger)
    (reqs : List (Address × Address × Int)) (s r : Address) (n b : Int) :
    (applySeq st reqs = .ok st' → sumBal st' = sumBal st) ∧
    (transfer st s r n = .ok (st₂, b) → sumBal st₂ = sumBal st) := by
  constructor
  · induction reqs generalizing st with
    | nil =>
        intro h
        simp only [applySeq, Except.ok.injEq] at h
        rw [h]
    | cons q rest ih =>
        obtain ⟨s', r', n'⟩ := q
        intro h
        rw [applySeq] at h
        cases htr : transfer st s' r' n' with
        | error e => rw [htr] at h; cases h
        | ok p =>
            obtain ⟨st1, b1⟩ := p
            rw [htr] at h
            rw [ih st1 h, transfer_conserves htr]
  · exact transfer_conserves

/-- Witness for C6: from "A" holding 10, the two-step sequence A→B 3 then
B→C 2, and the single transfer A→B 3. -/
theorem transfer_conservation_witness :
    sumBal [("A", 7), ("B", 1), ("C", 2)] = sumBal [("A", 10)] ∧
    sumBal [("A", 7), ("B", 3)] = sumBal [("A", 10)] := by
  have h := transfer_conservation [("A", 10)] [("A", 7), ("B", 1), ("C", 2)]
    [("A", 7), ("B", 3)] [("A", "B", 3), ("B", "C", 2)] "A" "B" 3 7
  exact ⟨h.1 (by decide), h.2 (by decide)⟩

/-- C7: when the sender's balance (non-negative) is below the requested
amount, `transfer` fails with `InsufficientFundsError`, and so does
`authorizeAndApply` when signature recovery yields that sender; the error
result carries no new state, so no balance changes. -/
theorem insufficient_funds_rejection (st : Ledger) (s r : Address) (n : Int)
    (sig : String) (recoverSender : TransferMessage → String → Option Address)
    (hnn : 0 ≤ getBalance st s) (hlt : getBalance st s < n) (hr : r ≠ "")
    (hrec : recoverSender ⟨some n, r⟩ sig = some s) :
    transfer st s r n = .error .InsufficientFundsError ∧
    authorizeAndApply recoverSender st ⟨⟨some n, r⟩, sig⟩ =
      .error .InsufficientFundsError := by
  have ht : transfer st s r n = .error .InsufficientFundsError := by
    unfold transfer
    rw [if_neg (show ¬ n ≤ 0 by linarith), if_pos hlt]
  refine ⟨ht, ?_⟩
  unfold authorizeAndApply
  simp only [hrec, if_neg hr, if_neg (show ¬ n ≤ 0 by linarith)]
  exact ht

/-- Witness for C7: the spec §8 scenario — "A" holds 10 and the signed
message asks for 20; both the ledger operation and the authorization
pipeline reject with `InsufficientFundsError`, leaving "A" at 10 and "B"
at 0. -/
theorem insufficient_funds_rejection_witness :
    transfer [("A", 10)] "A" "B" 20 = .error .InsufficientFundsError ∧
    authorizeAndApply (fun _ _ => some "A") [("A", 10)] ⟨⟨some 20, "B"⟩, "s"⟩ =
      .error .InsufficientFundsError :=
  insufficient_funds_rejection [("A", 10)] "A" "B" 20 "s" (fun _ _ => some "A")
    (by decide) (by decide) (by decide) rfl

/-- C8: starting from "A" = 100, a signed transfer of 30 to a distinct
recipient B (recovered to sender A) is applied, yielding A = 70, B = 30;
resubmitting the byte-identical signed transfer is accepted again and
yields A = 40, B = 60 — there is no replay protection. -/
theorem replay_scenario (A B : Address) (sig : String)
    (recoverSender : TransferMessage → String → Option Address)
    (hAB : A ≠ B) (hB : B ≠ "")
    (hrec : recoverSender ⟨some 30, B⟩ sig = some A) :
    ∃ st₁ st₂,
      authorizeAndApply recoverSender [(A, 100)] ⟨⟨some 30, B⟩, sig⟩ =
        .ok (st₁, 70) ∧
      getBalance st₁ A = 70 ∧ getBalance st₁ B = 30 ∧
      authorizeAndApply recoverSender st₁ ⟨⟨some 30, B⟩, sig⟩ =
        .ok (st₂, 40) ∧
      getBalance st₂ A = 40 ∧ getBalance st₂ B = 60 := by
  have hBA : ¬ B = A := fun h => hAB h.symm
  refine ⟨[(A, 70), (B, 30)], [(A, 40), (B, 60)], ?_, ?_, ?_, ?_, ?_, ?_⟩
  · unfold authorizeAndApply
    simp only [hrec, if_neg hB]
    norm_num
    unfold transfer
    simp [getBalance, setBalance, hAB, hBA]
  · simp [getBalance]
  · simp [getBalance, hBA]
  · unfold authorizeAndApply
    simp only [hrec, if_neg hB]
    norm_num
    unfold transfer
    simp [getBalance, setBalance, hAB, hBA]
  · simp [getBalance]
  · simp [getBalance, hBA]

/-- Witness for C8 at concrete addresses "A", "B" and a concrete recovery
function. -/
theorem replay_scenario_witness :
    ∃ st₁ st₂,
      authorizeAndApply (fun _ _ => some "A") [("A", 100)]
        ⟨⟨some 30, "B"⟩, "s"⟩ = .ok (st₁, 70) ∧
      getBalance st₁ "A" = 70 ∧ getBalance st₁ "B" = 30 ∧
      authorizeAndApply (fun _ _ => some "A") st₁ ⟨⟨some 30, "B"⟩, "s"⟩ =
        .ok (st₂, 40) ∧
      getBalance st₂ "A" = 40 ∧ getBalance st₂ "B" = 60 :=
  replay_scenario "A" "B" "s" (fun _ _ => some "A")
    (by decide) (by decide) rfl

/-- C9 (counterexample): the claim that a request with amount ≤ 0 or a
missing recipient is rejected with `MalformedRequestError` before any
cryptographic work fails on the client code: the `Transfer.jsx` handler
performs no validation and always signs. Concretely, for the form input
"-5" with an empty recipient, the built message has amount -5 ≤ 0, yet the
submitted transaction embeds the output of the signing function (two
different signing functions produce two different transactions), so signing
work is performed on the request and nothing is rejected at that point. -/
theorem malformed_request_signed_anyway :
    jsParseInt "-5" = some (-5) ∧
    ((-5 : Int) ≤ 0) ∧
    (clientTransfer (fun _ => "00") "-5" "").message =
      ⟨some (-5), ""⟩ ∧
    (clientTransfer (fun _ => "00") "-5" "").signature = "00" ∧
    clientTransfer (fun _ => "00") "-5" "" ≠ clientTransfer (fun _ => "11") "-5" "" :=
  ⟨by decide, by decide, by decide, rfl, by decide⟩

/-- C9 (amended): the server-side `authorizeAndApply` (modelled from the
spec, the server sources being absent) rejects a request whose amount is
NaN or ≤ 0 or whose recipient is missing with `MalformedRequestError`, and
its result does not depend on the recovery function — no server-side
cryptographic work decides it; the client wallet, however, has already
performed hashing and signing on the request: the submitted transaction
always embeds the signing function's output. -/
theorem malformed_gate_server_side
    (recover₁ recover₂ : TransferMessage → String → Option Address)
    (st : Ledger) (tx : SignedTransfer)
    (h : tx.message.amount = none ∨
      (∃ n, tx.message.amount = some n ∧ n ≤ 0) ∨
      tx.message.recipient = "") :
    authorizeAndApply recover₁ st tx = .error .MalformedRequestError ∧
    authorizeAndApply recover₁ st tx = authorizeAndApply recover₂ st tx ∧
    ∀ (signFn : TransferMessage → String) (a r : String),
      (clientTransfer signFn a r).signature = signFn ⟨jsParseInt a, r⟩ := by
  obtain ⟨⟨amt, rcp⟩, sigs⟩ := tx
  have hgate : ∀ recover : TransferMessage → String → Option Address,
      authorizeAndApply recover st ⟨⟨amt, rcp⟩, sigs⟩ =
        .error .MalformedRequestError := by
    intro recover
    rcases h with hnone | ⟨n, hn, hle⟩ | hrcp
    · simp only at hnone
      subst hnone
      rfl
    · simp only at hn
      subst hn
      unfold authorizeAndApply
      simp only [if_pos hle]
    · simp only at hrcp
      subst hrcp
      unfold authorizeAndApply
      cases amt with
      | none => rfl
      | some n =>
          by_cases hle : n ≤ 0
          · simp only [if_pos hle]
          · simp only [if_neg hle, if_pos rfl]
            rfl
  exact ⟨hgate recover₁, by rw [hgate recover₁, hgate recover₂], fun _ _ _ => rfl⟩

/-- Witness for C9's amended statement: the transaction built from the
"-5" / empty-recipient form input, two unrelated recovery functions, and
the empty ledger. -/
theorem malformed_gate_server_side_witness :
    authorizeAndApply (fun _ _ => some "A") [] ⟨⟨some (-5), ""⟩, "00"⟩ =
      .error .MalformedRequestError ∧
    authorizeAndApply (fun _ _ => some "A") [] ⟨⟨some (-5), ""⟩, "00"⟩ =
      authorizeAndApply (fun _ _ => none) [] ⟨⟨some (-5), ""⟩, "00"⟩ ∧
    ∀ (signFn : TransferMessage → String) (a r : String),
      (clientTransfer signFn a r).signature = signFn ⟨jsParseInt a, r⟩ :=
  malformed_gate_server_side (fun _ _ => some "A") (fun _ _ => none) []
    ⟨⟨some (-5), ""⟩, "00"⟩ (Or.inr (Or.inl ⟨-5, rfl, by decide⟩))
